import Mathlib

/-!
Verification of PyClutterCutter (PyClutterCutter.py): a shallow embedding of
the reachability-analysis engine (file inventory, import extraction, module
resolution, used/unused/large set computation) and of the interactive
disposition workflow (selection state machine, confirmations, delete/archive
batch execution).  External effects (the filesystem walk, the ignore filter,
the runtime module finder, terminal input, and the outcome of each
delete/move system call) are passed in as explicit parameters, so every
definition is a pure, executable function of its inputs.
-/

/-- Basename of a path: the characters after the last slash, mirroring
os.path.basename for forward-slash paths. -/
def basename (p : String) : String :=
  String.mk (p.data.foldl (fun acc c => if c = '/' then [] else acc ++ [c]) [])

/-- The str.endswith test of Python on the underlying character lists. -/
def strEndsWith (s suffix : String) : Bool :=
  suffix.data.isSuffixOf s.data

/-- The str.lower call of Python on the underlying character list. -/
def strLower (s : String) : String :=
  String.mk (s.data.map Char.toLower)

/-- os.path.join of a directory and a file name, with a single slash. -/
def joinPath (dir file : String) : String :=
  dir ++ "/" ++ file

/-- One import statement of a parsed source file, as produced by the ast
walk in get_imported_modules: an ast.Import node carries the dotted names
of its aliases, an ast.ImportFrom node carries the optional module (None
becomes the empty string) and the imported alias names. -/
inductive ImportStmt where
  | imp (names : List String)
  | impFrom (module : Option String) (names : List String)
deriving DecidableEq, Repr

/-- The names one statement contributes to the import set: alias.name for
ast.Import, and the f-string "{module}.{alias.name}" (module defaulting to
the empty string) for ast.ImportFrom. -/
def stmtNames : ImportStmt → List String
  | ImportStmt.imp names => names
  | ImportStmt.impFrom m names => names.map (fun a => (m.getD "") ++ "." ++ a)

/-- Adding one name to a Python set modelled as a duplicate-free list in
insertion order. -/
def addName (acc : List String) (n : String) : List String :=
  if n ∈ acc then acc else acc ++ [n]

/-- Adding every name of a list to the set. -/
def addAll (acc : List String) (ns : List String) : List String :=
  ns.foldl addName acc

/-- get_imported_modules, lines 71 - 85: walk the statements and collect the
set of import names. -/
def get_imported_modules (stmts : List ImportStmt) : List String :=
  stmts.foldl (fun acc s => addAll acc (stmtNames s)) []

/-- The outcome of importlib.util.find_spec on one top-level name, as the
surrounding code at lines 229 - 234 distinguishes them: a spec was returned
(with its origin attribute, None for namespace packages), find_spec
returned None, one of the caught exception classes (ImportError,
AttributeError, ModuleNotFoundError) was raised, or some other exception
was raised, which the inner except does not catch and which therefore
escapes to the outer except Exception at line 235. -/
inductive SpecOutcome where
  | found (origin : Option String)
  | notFound
  | raised (msg : String)
  | fatal (msg : String)
deriving DecidableEq, Repr

/-- Whether an outcome escapes the inner except clause. -/
def SpecOutcome.isFatal : SpecOutcome → Bool
  | SpecOutcome.fatal _ => true
  | _ => false

/-- The text before the first dot of an import name: import_name.split(
followed by the dot)[0] at line 230. -/
def topSegment (n : String) : String :=
  String.mk (n.data.takeWhile (fun c => c ≠ '.'))

/-- The resolution loop of find_unused_files, lines 228 - 234: for each of
the import names, find_spec is attempted on its top segment; a spec with a
truthy origin adds that origin to used; a missing spec or a spec without
origin adds nothing; a caught exception adds the pair (import name,
message) to problematic and the loop continues; an uncaught exception
aborts the remaining names (the outer except Exception catches it). -/
def resolveImports (resolver : String → SpecOutcome) :
    List String → Finset String × Finset (String × String) →
    Finset String × Finset (String × String)
  | [], s => s
  | n :: rest, (used, prob) =>
    match resolver (topSegment n) with
    | SpecOutcome.found (some o) => resolveImports resolver rest (insert o used, prob)
    | SpecOutcome.found none => resolveImports resolver rest (used, prob)
    | SpecOutcome.notFound => resolveImports resolver rest (used, prob)
    | SpecOutcome.raised msg => resolveImports resolver rest (used, insert (n, msg) prob)
    | SpecOutcome.fatal _ => (used, prob)

/-- The origins contributed to used by a list of import names. -/
def resolvedOrigins (resolver : String → SpecOutcome) (ns : List String) : List String :=
  ns.filterMap (fun n =>
    match resolver (topSegment n) with
    | SpecOutcome.found (some o) => some o
    | _ => none)

/-- The pairs contributed to problematic by a list of import names. -/
def raisedPairs (resolver : String → SpecOutcome) (ns : List String) :
    List (String × String) :=
  ns.filterMap (fun n =>
    match resolver (topSegment n) with
    | SpecOutcome.raised m => some (n, m)
    | _ => none)

/-- One file handed to process_file by the walk in find_unused_files: its
path, its stat size, and the result of ast-parsing it (none when ast.parse
raises, reaching the outer except Exception at line 235). -/
structure WalkFile where
  path : String
  size : Nat
  parse : Option (List ImportStmt)
deriving DecidableEq, Repr

/-- The configuration keys the scan consumes (MAIN_FILE, SIZE_THRESHOLD,
EXTENSIONS, EXCLUDE_SELF).  The ignore filter (gitignore patterns plus
IGNORE_DIRS) is an external collaborator and is passed as a predicate. -/
structure Config where
  mainFile : String
  sizeThreshold : Nat
  extensions : List String
  excludeSelf : Bool
deriving Repr

/-- process_file, lines 185 - 192: a file passes if it is not ignored and
its path ends with one of the configured extensions; the result carries the
path, the stat size and whether the basename equals MAIN_FILE. -/
def process_file (cfg : Config) (ignore : String → Bool) (f : WalkFile) :
    Option (String × Nat × Bool) :=
  if !ignore f.path && cfg.extensions.any (fun ext => strEndsWith f.path ext) then
    some (f.path, f.size, basename f.path == cfg.mainFile)
  else none

/-- The accumulator of the result loop of find_unused_files, lines
195 - 198: used_files, the keys of all_files, problematic_imports and
large_files. -/
structure ScanState where
  used : Finset String
  allFiles : Finset String
  problematic : Finset (String × String)
  large : Finset String

/-- One iteration of the result loop, lines 216 - 236: a file surviving
process_file is recorded in all_files and, when its size strictly exceeds
SIZE_THRESHOLD, in large_files; a file whose basename matched MAIN_FILE is
added to used_files and then has its imports extracted and resolved (a
parse failure is caught at line 235 after the used addition, leaving the
other sets unchanged). -/
def scanStep (cfg : Config) (ignore : String → Bool) (resolver : String → SpecOutcome)
    (st : ScanState) (f : WalkFile) : ScanState :=
  match process_file cfg ignore f with
  | none => st
  | some (path, size, isMain) =>
    let all2 := insert path st.allFiles
    let large2 := if cfg.sizeThreshold < size then insert path st.large else st.large
    if isMain then
      match f.parse with
      | none =>
        { used := insert path st.used, allFiles := all2,
          problematic := st.problematic, large := large2 }
      | some stmts =>
        let r := resolveImports resolver (get_imported_modules stmts)
          (insert path st.used, st.problematic)
        { used := r.1, allFiles := all2, problematic := r.2, large := large2 }
    else
      { used := st.used, allFiles := all2, problematic := st.problematic, large := large2 }

/-- The file list built at lines 203 - 208: every walked file except, when
EXCLUDE_SELF is set, the script itself. -/
def fileList (cfg : Config) (selfPath : String) (files : List WalkFile) : List WalkFile :=
  files.filter (fun f => !(cfg.excludeSelf && f.path == selfPath))

/-- The state after the whole result loop of find_unused_files. -/
def scanState (cfg : Config) (ignore : String → Bool) (resolver : String → SpecOutcome)
    (selfPath : String) (files : List WalkFile) : ScanState :=
  (fileList cfg selfPath files).foldl (scanStep cfg ignore resolver)
    { used := ∅, allFiles := ∅, problematic := ∅, large := ∅ }

/-- The tuple returned by find_unused_files, lines 238 - 239. -/
structure ScanOut where
  unused : Finset String
  problematic : Finset (String × String)
  large : Finset String
  allFiles : Finset String

/-- find_unused_files, lines 194 - 239, with the walk order, the ignore
filter and the module finder as inputs. -/
def find_unused_files (cfg : Config) (ignore : String → Bool)
    (resolver : String → SpecOutcome) (selfPath : String) (files : List WalkFile) :
    ScanOut :=
  let st := scanState cfg ignore resolver selfPath files
  { unused := st.allFiles \ st.used, problematic := st.problematic,
    large := st.large, allFiles := st.allFiles }

/-! The interactive selection loop of interactive_select, lines 136 - 183. -/

/-- The keys the loop reacts to: the two recognised escape sequences, the
space bar, a/n, q, d, m; anything else (including unrecognised escape
sequences) leaves the state unchanged. -/
inductive Key where
  | up | down | space | selectAll | deselectAll | quit | delete | archive | other
deriving DecidableEq, Repr

/-- The two dispositions. -/
inductive Act where
  | delete | archive
deriving DecidableEq, Repr

/-- The key that requests an action. -/
def Act.key : Act → Key
  | Act.delete => Key.delete
  | Act.archive => Key.archive

/-- One non-terminating keypress on the state (selected, current), lines
161 - 172: up and down move the cursor by one, clamped at the ends; space
toggles the entry under the cursor; a and n rewrite the whole selected
list. -/
def stepKey (n : Nat) (st : List Bool × Nat) : Key → List Bool × Nat
  | Key.up => if 0 < st.2 then (st.1, st.2 - 1) else st
  | Key.down => if st.2 < n - 1 then (st.1, st.2 + 1) else st
  | Key.space => (st.1.set st.2 (!(st.1.getD st.2 false)), st.2)
  | Key.selectAll => (List.replicate n true, st.2)
  | Key.deselectAll => (List.replicate n false, st.2)
  | _ => st

/-- The state after a sequence of non-terminating keypresses, starting from
selected = [False] * n and current = 0 (lines 137 - 138). -/
def runKeys (n : Nat) (keys : List Key) : List Bool × Nat :=
  keys.foldl (stepKey n) (List.replicate n false, 0)

/-- The list comprehension at lines 176 and 178: the options whose selected
flag is set, in option order. -/
def pickSelected (options : List String) (sel : List Bool) : List String :=
  (List.range options.length).filterMap
    (fun i => if sel.getD i false then options.get? i else none)

/-- The observable outcome of the while loop: still waiting for a key,
returned None on q, or returned (selected options, action) on d or m. -/
inductive LoopOut where
  | running (st : List Bool × Nat)
  | cancelled
  | done (files : List String) (a : Act)
deriving DecidableEq, Repr

/-- The while loop at lines 159 - 183 run on a list of keys: q returns
None, d and m return the selected snapshot with the action, every other
key updates the state and loops. -/
def selectRun (options : List String) : List Key → List Bool × Nat → LoopOut
  | [], st => LoopOut.running st
  | k :: ks, st =>
    match k with
    | Key.quit => LoopOut.cancelled
    | Key.delete => LoopOut.done (pickSelected options st.1) Act.delete
    | Key.archive => LoopOut.done (pickSelected options st.1) Act.archive
    | _ => selectRun options ks (stepKey options.length st k)

/-! The disposition phase of main, lines 323 - 362, and the two batch
executors delete_files (lines 241 - 247) and move_to_archive (lines
249 - 258).  Observable behaviour is a list of events: the two confirmation
prompts and the attempted filesystem mutations with their per-file
outcomes. -/

/-- Observable events of the disposition phase. -/
inductive Event where
  | promptFirst (a : Act)
  | promptFinal
  | madeDir (p : String)
  | removed (p : String)
  | removeFailed (p msg : String)
  | moved (src dst : String)
  | moveFailed (src msg : String)
deriving DecidableEq, Repr

/-- Whether an event mutates the filesystem (prompts do not). -/
def Event.isMutation : Event → Bool
  | Event.promptFirst _ => false
  | Event.promptFinal => false
  | _ => true

/-- delete_files, lines 241 - 247: each file is attempted in turn with the
outcome of os.remove supplied by removeOp; success and failure are both
reported per file and the loop always continues to the next file. -/
def delete_files (removeOp : String → Except String Unit) (files : List String) :
    List Event :=
  files.map (fun f =>
    match removeOp f with
    | Except.ok _ => Event.removed f
    | Except.error e => Event.removeFailed f e)

/-- move_to_archive, lines 249 - 258: the archive directory is created when
absent, then each file is attempted in turn with the outcome of shutil.move
supplied by moveOp, the destination being the archive folder joined with
the basename; per-file failures are reported and the loop continues. -/
def move_to_archive (dirExists : Bool) (moveOp : String → Except String Unit)
    (files : List String) (archiveFolder : String) : List Event :=
  (if dirExists then [] else [Event.madeDir archiveFolder]) ++
  files.map (fun f =>
    match moveOp f with
    | Except.ok _ => Event.moved f (joinPath archiveFolder (basename f))
    | Except.error e => Event.moveFailed f e)

/-- Lines 323 - 362 of main, after interactive_select returns: None means
cancelled, nothing happens; an empty selection returns before any prompt;
otherwise the first confirmation is read and compared lowercased with y,
then the action-specific final confirmation, and only after both does the
matching batch executor run. -/
def dispositionPhase (removeOp moveOp : String → Except String Unit)
    (archivePath : String) (dirExists : Bool)
    (result : Option (List String × Act)) (confirm finalConfirm : String) :
    List Event :=
  match result with
  | none => []
  | some (files, action) =>
    if files.isEmpty then []
    else
      Event.promptFirst action ::
        (if strLower confirm = "y" then
          Event.promptFinal ::
            (if strLower finalConfirm = "y" then
              match action with
              | Act.delete => delete_files removeOp files
              | Act.archive => move_to_archive dirExists moveOp files archivePath
            else [])
        else [])

/-! The module top level.  The body of PyClutterCutter.py defines sixteen
functions and, at line 45, calls load_config once; the `if __name__ ==
"__main__"` guard at lines 370 - 371 is indented inside the body of main,
so its call to main is part of the definition of main, not a top-level
statement.  The call graph below lists, for each defined function, the
module-level functions its body calls. -/

/-- One function definition of the module with the module-level functions
its body invokes. -/
structure FuncDef where
  name : String
  calls : List String
deriving DecidableEq, Repr

/-- The sixteen def statements of PyClutterCutter.py in source order, each
with the in-module calls of its body.  main ends with the guarded
self-call of lines 370 - 371. -/
def moduleDefs : List FuncDef :=
  [ { name := "load_config", calls := [] },
    { name := "parse_gitignore", calls := [] },
    { name := "should_ignore", calls := [] },
    { name := "get_imported_modules", calls := [] },
    { name := "get_file_info", calls := [] },
    { name := "format_size", calls := [] },
    { name := "format_date", calls := [] },
    { name := "print_table", calls := [] },
    { name := "get_char", calls := [] },
    { name := "interactive_select", calls := ["get_char"] },
    { name := "process_file", calls := ["should_ignore", "get_file_info"] },
    { name := "find_unused_files",
      calls := ["parse_gitignore", "process_file", "get_imported_modules"] },
    { name := "delete_files", calls := [] },
    { name := "move_to_archive", calls := [] },
    { name := "parse_arguments", calls := [] },
    { name := "main",
      calls := ["parse_arguments", "find_unused_files", "format_size",
                "format_date", "print_table", "interactive_select",
                "delete_files", "move_to_archive", "main"] } ]

/-- The module-level functions called by statements at the top level of the
module: only the CONFIG = load_config() assignment at line 45. -/
def topLevelCalls : List String := ["load_config"]

/-- The in-module calls of a named function. -/
def callsOf (n : String) : List String :=
  match moduleDefs.find? (fun d => d.name == n) with
  | some d => d.calls
  | none => []

/-- One round of call-graph closure: add the callees of every reached
function. -/
def closureStep (acc : List String) : List String :=
  acc.foldl (fun a c => a ++ (callsOf c).filter (fun x => !a.contains x)) acc

/-- Fuelled call-graph closure. -/
def reachedFrom : Nat → List String → List String
  | 0, acc => acc
  | Nat.succ n, acc => reachedFrom n (closureStep acc)

/-- Every function that can run when the module is executed as a script:
the closure of the top-level calls through the call graph (fuel larger
than the number of definitions). -/
def scriptReached : List String := reachedFrom 20 topLevelCalls

/-! Theorems. -/

theorem mem_addName {acc : List String} {n x : String} :
    x ∈ addName acc n ↔ x ∈ acc ∨ x = n := by
  unfold addName
  split
  · rename_i h
    constructor
    · exact fun hx => Or.inl hx
    · rintro (hx | rfl)
      · exact hx
      · exact h
  · simp [List.mem_append]

theorem nodup_addName {acc : List String} {n : String} (h : acc.Nodup) :
    (addName acc n).Nodup := by
  unfold addName
  split
  · exact h
  · rename_i hn
    simp [List.nodup_append, h, hn]

theorem mem_addAll : ∀ (ns acc : List String) (x : String),
    x ∈ addAll acc ns ↔ x ∈ acc ∨ x ∈ ns
  | [], acc, x => by simp [addAll]
  | n :: rest, acc, x => by
    have ih := mem_addAll rest (addName acc n) x
    simp only [addAll, List.foldl_cons] at ih ⊢
    rw [ih, mem_addName]
    simp only [List.mem_cons]
    tauto

theorem nodup_addAll : ∀ (ns acc : List String), acc.Nodup → (addAll acc ns).Nodup
  | [], _, h => h
  | n :: rest, acc, h => by
    simp only [addAll, List.foldl_cons]
    exact nodup_addAll rest (addName acc n) (nodup_addName h)

theorem mem_gim_aux : ∀ (stmts : List ImportStmt) (acc : List String) (x : String),
    x ∈ stmts.foldl (fun acc s => addAll acc (stmtNames s)) acc ↔
      x ∈ acc ∨ ∃ s ∈ stmts, x ∈ stmtNames s
  | [], acc, x => by simp
  | s :: rest, acc, x => by
    have ih := mem_gim_aux rest (addAll acc (stmtNames s)) x
    simp only [List.foldl_cons] at ih ⊢
    rw [ih, mem_addAll]
    simp only [List.mem_cons]
    constructor
    · rintro ((h | h) | ⟨t, ht, hx⟩)
      · exact Or.inl h
      · exact Or.inr ⟨s, Or.inl rfl, h⟩
      · exact Or.inr ⟨t, Or.inr ht, hx⟩
    · rintro (h | ⟨t, (rfl | ht), hx⟩)
      · exact Or.inl (Or.inl h)
      · exact Or.inl (Or.inr hx)
      · exact Or.inr ⟨t, ht, hx⟩

theorem nodup_gim_aux : ∀ (stmts : List ImportStmt) (acc : List String),
    acc.Nodup → (stmts.foldl (fun acc s => addAll acc (stmtNames s)) acc).Nodup
  | [], _, h => h
  | s :: rest, acc, h => by
    simp only [List.foldl_cons]
    exact nodup_gim_aux rest (addAll acc (stmtNames s)) (nodup_addAll (stmtNames s) acc h)

theorem mem_get_imported_modules (stmts : List ImportStmt) (x : String) :
    x ∈ get_imported_modules stmts ↔ ∃ s ∈ stmts, x ∈ stmtNames s := by
  unfold get_imported_modules
  rw [mem_gim_aux]
  simp

/-- C6: for every parseable file, get_imported_modules returns a
deduplicated set of names in which an ast.Import statement contributes each
alias name as is, and an ast.ImportFrom statement contributes module ++
"." ++ alias for each alias, the module component defaulting to the empty
string when absent, so that the recorded name is "." ++ alias in that edge
case. -/
theorem get_imported_modules_spec (stmts : List ImportStmt) (n : String) :
    (get_imported_modules stmts).Nodup ∧
    (n ∈ get_imported_modules stmts ↔
      (∃ names, ImportStmt.imp names ∈ stmts ∧ n ∈ names) ∨
      (∃ m names a, ImportStmt.impFrom m names ∈ stmts ∧ a ∈ names ∧
        n = (m.getD "") ++ "." ++ a)) := by
  constructor
  · exact nodup_gim_aux stmts [] List.nodup_nil
  · rw [mem_get_imported_modules]
    constructor
    · rintro ⟨s, hs, hn⟩
      cases s with
      | imp names => exact Or.inl ⟨names, hs, hn⟩
      | impFrom m names =>
        simp only [stmtNames, List.mem_map] at hn
        obtain ⟨a, ha, rfl⟩ := hn
        exact Or.inr ⟨m, names, a, hs, ha, rfl⟩
    · rintro (⟨names, hs, hn⟩ | ⟨m, names, a, hs, ha, rfl⟩)
      · exact ⟨ImportStmt.imp names, hs, hn⟩
      · refine ⟨ImportStmt.impFrom m names, hs, ?_⟩
        simp only [stmtNames, List.mem_map]
        exact ⟨a, ha, rfl⟩

/-- C2: the module body never invokes main.  The only top-level call is
load_config; the only call of main anywhere in the module is the guarded
call inside the body of main itself (lines 370 - 371 are indented inside
main); and the call-graph closure of what actually runs when the script is
executed reaches neither main nor the scan, reporting, or disposition
functions, so no inventory scan, reachability analysis, reporting, or
interactive disposition is ever performed. -/
theorem script_never_invokes_main :
    topLevelCalls.contains "main" = false ∧
    (moduleDefs.all (fun d => !(d.calls.contains "main") || d.name == "main")) = true ∧
    (callsOf "main").contains "main" = true ∧
    scriptReached.contains "main" = false ∧
    scriptReached.contains "find_unused_files" = false ∧
    scriptReached.contains "interactive_select" = false ∧
    scriptReached.contains "print_table" = false ∧
    scriptReached.contains "delete_files" = false ∧
    scriptReached.contains "move_to_archive" = false := by
  decide

theorem resolveImports_mono (resolver : String → SpecOutcome) :
    ∀ (ns : List String) (u : Finset String) (p : Finset (String × String)),
    u ⊆ (resolveImports resolver ns (u, p)).1 ∧ p ⊆ (resolveImports resolver ns (u, p)).2
  | [], u, p => ⟨Finset.Subset.refl u, Finset.Subset.refl p⟩
  | n :: rest, u, p => by
    cases h : resolver (topSegment n) with
    | found o =>
      cases o with
      | none =>
        simpa only [resolveImports, h] using resolveImports_mono resolver rest u p
      | some o2 =>
        have ih := resolveImports_mono resolver rest (insert o2 u) p
        simp only [resolveImports, h]
        exact ⟨(Finset.subset_insert o2 u).trans ih.1, ih.2⟩
    | notFound =>
      simpa only [resolveImports, h] using resolveImports_mono resolver rest u p
    | raised m =>
      have ih := resolveImports_mono resolver rest u (insert (n, m) p)
      simp only [resolveImports, h]
      exact ⟨ih.1, (Finset.subset_insert (n, m) p).trans ih.2⟩
    | fatal m =>
      simp only [resolveImports, h]
      exact ⟨Finset.Subset.refl u, Finset.Subset.refl p⟩

theorem resolveImports_eq (resolver : String → SpecOutcome) :
    ∀ (ns : List String) (u : Finset String) (p : Finset (String × String)),
    (∀ n ∈ ns, (resolver (topSegment n)).isFatal = false) →
    resolveImports resolver ns (u, p) =
      (u ∪ (resolvedOrigins resolver ns).toFinset,
       p ∪ (raisedPairs resolver ns).toFinset)
  | [], u, p, _ => by
    simp [resolveImports, resolvedOrigins, raisedPairs]
  | n :: rest, u, p, h => by
    have hn : (resolver (topSegment n)).isFatal = false := h n (List.mem_cons_self n rest)
    have hrest : ∀ m ∈ rest, (resolver (topSegment m)).isFatal = false :=
      fun m hm => h m (List.mem_cons_of_mem n hm)
    cases hc : resolver (topSegment n) with
    | found o =>
      cases o with
      | none =>
        rw [show resolveImports resolver (n :: rest) (u, p) =
              resolveImports resolver rest (u, p) by simp [resolveImports, hc]]
        rw [resolveImports_eq resolver rest u p hrest]
        simp [resolvedOrigins, raisedPairs, List.filterMap_cons, hc]
      | some o2 =>
        rw [show resolveImports resolver (n :: rest) (u, p) =
              resolveImports resolver rest (insert o2 u, p) by simp [resolveImports, hc]]
        rw [resolveImports_eq resolver rest (insert o2 u) p hrest]
        simp [resolvedOrigins, raisedPairs, List.filterMap_cons, hc,
          Finset.insert_union, Finset.union_insert]
    | notFound =>
      rw [show resolveImports resolver (n :: rest) (u, p) =
            resolveImports resolver rest (u, p) by simp [resolveImports, hc]]
      rw [resolveImports_eq resolver rest u p hrest]
      simp [resolvedOrigins, raisedPairs, List.filterMap_cons, hc]
    | raised m =>
      rw [show resolveImports resolver (n :: rest) (u, p) =
            resolveImports resolver rest (u, insert (n, m) p) by simp [resolveImports, hc]]
      rw [resolveImports_eq resolver rest u (insert (n, m) p) hrest]
      simp [resolvedOrigins, raisedPairs, List.filterMap_cons, hc,
        Finset.insert_union, Finset.union_insert]
    | fatal m =>
      rw [hc] at hn
      simp [SpecOutcome.isFatal] at hn

theorem process_file_some {cfg : Config} {ignore : String → Bool} {g : WalkFile}
    {x : String} {size : Nat} {b : Bool}
    (h : process_file cfg ignore g = some (x, size, b)) : x = g.path ∧ size = g.size := by
  unfold process_file at h
  split at h
  · simp only [Option.some.injEq, Prod.mk.injEq] at h
    exact ⟨h.1.symm, h.2.1.symm⟩
  · simp at h

theorem scanStep_of_none {cfg : Config} {ignore : String → Bool}
    {resolver : String → SpecOutcome} {st : ScanState} {f : WalkFile}
    (h : process_file cfg ignore f = none) :
    scanStep cfg ignore resolver st f = st := by
  simp [scanStep, h]

theorem scanStep_large_eq {cfg : Config} {ignore : String → Bool}
    {resolver : String → SpecOutcome} {st : ScanState} {f : WalkFile}
    {path : String} {size : Nat} {isMain : Bool}
    (hc : process_file cfg ignore f = some (path, size, isMain)) :
    (scanStep cfg ignore resolver st f).large =
      if cfg.sizeThreshold < size then insert path st.large else st.large := by
  cases isMain with
  | false => simp [scanStep, hc]
  | true =>
    cases hp : f.parse with
    | none => simp [scanStep, hc, hp]
    | some stmts => simp [scanStep, hc, hp]

theorem scanStep_used_main_noparse {cfg : Config} {ignore : String → Bool}
    {resolver : String → SpecOutcome} {st : ScanState} {f : WalkFile}
    {path : String} {size : Nat}
    (hc : process_file cfg ignore f = some (path, size, true))
    (hp : f.parse = none) :
    (scanStep cfg ignore resolver st f).used = insert path st.used := by
  simp [scanStep, hc, hp]

theorem scanStep_main_parse {cfg : Config} {ignore : String → Bool}
    {resolver : String → SpecOutcome} {st : ScanState} {f : WalkFile}
    {path : String} {size : Nat} {stmts : List ImportStmt}
    (hc : process_file cfg ignore f = some (path, size, true))
    (hp : f.parse = some stmts) :
    (scanStep cfg ignore resolver st f).used =
      (resolveImports resolver (get_imported_modules stmts)
        (insert path st.used, st.problematic)).1 ∧
    (scanStep cfg ignore resolver st f).problematic =
      (resolveImports resolver (get_imported_modules stmts)
        (insert path st.used, st.problematic)).2 := by
  constructor <;> simp [scanStep, hc, hp]

theorem scanStep_used_mono (cfg : Config) (ignore : String → Bool)
    (resolver : String → SpecOutcome) (st : ScanState) (f : WalkFile) :
    st.used ⊆ (scanStep cfg ignore resolver st f).used := by
  cases hc : process_file cfg ignore f with
  | none => simp [scanStep, hc]
  | some r =>
    obtain ⟨path, size, isMain⟩ := r
    cases isMain with
    | false => simp [scanStep, hc]
    | true =>
      cases hp : f.parse with
      | none =>
        rw [scanStep_used_main_noparse hc hp]
        exact Finset.subset_insert path st.used
      | some stmts =>
        rw [(scanStep_main_parse hc hp).1]
        exact (Finset.subset_insert path st.used).trans
          (resolveImports_mono resolver (get_imported_modules stmts) _ _).1

theorem scanStep_problematic_mono (cfg : Config) (ignore : String → Bool)
    (resolver : String → SpecOutcome) (st : ScanState) (f : WalkFile) :
    st.problematic ⊆ (scanStep cfg ignore resolver st f).problematic := by
  cases hc : process_file cfg ignore f with
  | none => simp [scanStep, hc]
  | some r =>
    obtain ⟨path, size, isMain⟩ := r
    cases isMain with
    | false => simp [scanStep, hc]
    | true =>
      cases hp : f.parse with
      | none => simp [scanStep, hc, hp]
      | some stmts =>
        rw [(scanStep_main_parse hc hp).2]
        exact (resolveImports_mono resolver (get_imported_modules stmts) _ _).2

theorem foldl_used_mono (cfg : Config) (ignore : String → Bool)
    (resolver : String → SpecOutcome) :
    ∀ (l : List WalkFile) (st : ScanState),
    st.used ⊆ (l.foldl (scanStep cfg ignore resolver) st).used
  | [], _ => Finset.Subset.refl _
  | f :: l, st => by
    simp only [List.foldl_cons]
    exact (scanStep_used_mono cfg ignore resolver st f).trans
      (foldl_used_mono cfg ignore resolver l _)

theorem foldl_problematic_mono (cfg : Config) (ignore : String → Bool)
    (resolver : String → SpecOutcome) :
    ∀ (l : List WalkFile) (st : ScanState),
    st.problematic ⊆ (l.foldl (scanStep cfg ignore resolver) st).problematic
  | [], _ => Finset.Subset.refl _
  | f :: l, st => by
    simp only [List.foldl_cons]
    exact (scanStep_problematic_mono cfg ignore resolver st f).trans
      (foldl_problematic_mono cfg ignore resolver l _)

theorem mem_scanStep_large (cfg : Config) (ignore : String → Bool)
    (resolver : String → SpecOutcome) (st : ScanState) (f : WalkFile) (x : String) :
    x ∈ (scanStep cfg ignore resolver st f).large ↔
      x ∈ st.large ∨ ∃ size isMain,
        process_file cfg ignore f = some (x, size, isMain) ∧
        cfg.sizeThreshold < size := by
  cases hc : process_file cfg ignore f with
  | none => simp [scanStep_of_none hc, hc]
  | some r =>
    obtain ⟨path, size2, isMain⟩ := r
    rw [scanStep_large_eq hc]
    by_cases hs : cfg.sizeThreshold < size2
    · simp only [hs, if_true, Finset.mem_insert, hc, Option.some.injEq, Prod.mk.injEq]
      constructor
      · rintro (rfl | h)
        · exact Or.inr ⟨size2, isMain, ⟨rfl, rfl, rfl⟩, hs⟩
        · exact Or.inl h
      · rintro (h | ⟨s2, m2, ⟨rfl, rfl, rfl⟩, hs2⟩)
        · exact Or.inr h
        · exact Or.inl rfl
    · simp only [hs, if_false, hc, Option.some.injEq, Prod.mk.injEq]
      constructor
      · exact fun h => Or.inl h
      · rintro (h | ⟨s2, m2, ⟨rfl, rfl, rfl⟩, hs2⟩)
        · exact h
        · exact absurd hs2 hs

theorem mem_foldl_large (cfg : Config) (ignore : String → Bool)
    (resolver : String → SpecOutcome) :
    ∀ (l : List WalkFile) (st : ScanState) (x : String),
    x ∈ (l.foldl (scanStep cfg ignore resolver) st).large ↔
      x ∈ st.large ∨ ∃ f ∈ l, ∃ size isMain,
        process_file cfg ignore f = some (x, size, isMain) ∧
        cfg.sizeThreshold < size
  | [], st, x => by simp
  | f :: l, st, x => by
    simp only [List.foldl_cons]
    rw [mem_foldl_large cfg ignore resolver l (scanStep cfg ignore resolver st f) x,
      mem_scanStep_large]
    simp only [List.mem_cons]
    constructor
    · rintro ((h | ⟨s2, m2, hp, hs⟩) | ⟨g, hg, s2, m2, hp, hs⟩)
      · exact Or.inl h
      · exact Or.inr ⟨f, Or.inl rfl, s2, m2, hp, hs⟩
      · exact Or.inr ⟨g, Or.inr hg, s2, m2, hp, hs⟩
    · rintro (h | ⟨g, (rfl | hg), s2, m2, hp, hs⟩)
      · exact Or.inl (Or.inl h)
      · exact Or.inl (Or.inr ⟨s2, m2, hp, hs⟩)
      · exact Or.inr ⟨g, hg, s2, m2, hp, hs⟩

/-- C5: an inventoried file is placed in large_files exactly when its stat
size strictly exceeds SIZE_THRESHOLD: a file whose size equals the
threshold is excluded and one byte over is included, and the criterion
never consults the used or unused status.  The inventory is assumed to
carry pairwise distinct paths, as a filesystem walk produces. -/
theorem large_iff_size_gt_threshold (cfg : Config) (ignore : String → Bool)
    (resolver : String → SpecOutcome) (selfPath : String) (files : List WalkFile)
    (hnd : ((fileList cfg selfPath files).map WalkFile.path).Nodup)
    (f : WalkFile) (hf : f ∈ fileList cfg selfPath files)
    (hcond : (!ignore f.path &&
      cfg.extensions.any (fun ext => strEndsWith f.path ext)) = true) :
    f.path ∈ (scanState cfg ignore resolver selfPath files).large ↔
      cfg.sizeThreshold < f.size := by
  unfold scanState
  rw [mem_foldl_large]
  constructor
  · rintro (h | ⟨g, hg, size, isMain, hpg, hsize⟩)
    · simp at h
    · obtain ⟨hpath, hsizeg⟩ := process_file_some hpg
      have hgf : g = f :=
        List.inj_on_of_nodup_map hnd hg hf hpath.symm
      rw [hsizeg, hgf] at hsize
      exact hsize
  · intro h
    exact Or.inr ⟨f, hf, f.size, basename f.path == cfg.mainFile,
      by simp [process_file, hcond], h⟩

/-- Witness for C5 on a two-file inventory: a file of size exactly the
threshold of 100 bytes is excluded from large_files and a file one byte
over is included. -/
theorem large_iff_size_gt_threshold_witness :
    ((⟨"b.py", 101, none⟩ : WalkFile).path ∈
      (scanState ⟨"app.py", 100, [".py"], false⟩ (fun _ => false)
        (fun _ => SpecOutcome.notFound) "s"
        [⟨"a.py", 100, none⟩, ⟨"b.py", 101, none⟩]).large ↔ 100 < 101) ∧
    ((⟨"a.py", 100, none⟩ : WalkFile).path ∈
      (scanState ⟨"app.py", 100, [".py"], false⟩ (fun _ => false)
        (fun _ => SpecOutcome.notFound) "s"
        [⟨"a.py", 100, none⟩, ⟨"b.py", 101, none⟩]).large ↔ 100 < 100) :=
  ⟨large_iff_size_gt_threshold ⟨"app.py", 100, [".py"], false⟩ (fun _ => false)
      (fun _ => SpecOutcome.notFound) "s"
      [⟨"a.py", 100, none⟩, ⟨"b.py", 101, none⟩] (by decide)
      ⟨"b.py", 101, none⟩ (by decide) (by decide),
   large_iff_size_gt_threshold ⟨"app.py", 100, [".py"], false⟩ (fun _ => false)
      (fun _ => SpecOutcome.notFound) "s"
      [⟨"a.py", 100, none⟩, ⟨"b.py", 101, none⟩] (by decide)
      ⟨"a.py", 100, none⟩ (by decide) (by decide)⟩

/-- C4: the returned unused set is exactly the inventoried paths minus the
used paths, and because the subtraction only ever removes elements of the
inventory, it coincides with subtracting the restriction of used to the
inventory: unused = all - used = all - (used intersect all). -/
theorem unused_eq_all_sdiff_used (cfg : Config) (ignore : String → Bool)
    (resolver : String → SpecOutcome) (selfPath : String) (files : List WalkFile) :
    (find_unused_files cfg ignore resolver selfPath files).unused =
      (scanState cfg ignore resolver selfPath files).allFiles \
        (scanState cfg ignore resolver selfPath files).used ∧
    (scanState cfg ignore resolver selfPath files).allFiles \
        (scanState cfg ignore resolver selfPath files).used =
      (scanState cfg ignore resolver selfPath files).allFiles \
        ((scanState cfg ignore resolver selfPath files).used ∩
          (scanState cfg ignore resolver selfPath files).allFiles) := by
  refine ⟨rfl, ?_⟩
  ext x
  simp only [Finset.mem_sdiff, Finset.mem_inter]
  tauto

/-- C3 counterexample: a tree with two inventoried files both named app.py.
The claim says exactly one of them, the last one encountered, is treated as
the entry file; but the code seeds BOTH into used_files and extracts the
the imports of both: the first file a/app.py is in used and its import x
was resolved (its failure pair appears in problematic), even though the
later b/app.py also matched. -/
theorem multiple_entry_basenames_all_seeded :
    ("a/app.py" ∈ (scanState ⟨"app.py", 1000, [".py"], false⟩ (fun _ => false)
      (fun _ => SpecOutcome.raised "nope") "s"
      [⟨"a/app.py", 1, some [ImportStmt.imp ["x"]]⟩, ⟨"b/app.py", 1, some []⟩]).used) ∧
    ("b/app.py" ∈ (scanState ⟨"app.py", 1000, [".py"], false⟩ (fun _ => false)
      (fun _ => SpecOutcome.raised "nope") "s"
      [⟨"a/app.py", 1, some [ImportStmt.imp ["x"]]⟩, ⟨"b/app.py", 1, some []⟩]).used) ∧
    (("x", "nope") ∈ (scanState ⟨"app.py", 1000, [".py"], false⟩ (fun _ => false)
      (fun _ => SpecOutcome.raised "nope") "s"
      [⟨"a/app.py", 1, some [ImportStmt.imp ["x"]]⟩, ⟨"b/app.py", 1, some []⟩]).problematic) := by
  decide

/-- C3 amended: every inventoried file whose basename equals the configured
MAIN_FILE is treated as an entry file, not only the last one: each such
file is seeded into used_files, and each such file has its imports
extracted and resolved, so a caught resolution failure of any of them
lands in problematic_imports (stated here for a resolver that never raises
an uncaught exception). -/
theorem every_matching_basename_is_entry (cfg : Config) (ignore : String → Bool)
    (resolver : String → SpecOutcome) (selfPath : String) (files : List WalkFile)
    (f : WalkFile) (hf : f ∈ fileList cfg selfPath files)
    (hcond : (!ignore f.path &&
      cfg.extensions.any (fun ext => strEndsWith f.path ext)) = true)
    (hmain : basename f.path = cfg.mainFile) :
    f.path ∈ (scanState cfg ignore resolver selfPath files).used ∧
    (∀ stmts n msg, f.parse = some stmts →
      (∀ s, (resolver s).isFatal = false) →
      n ∈ get_imported_modules stmts →
      resolver (topSegment n) = SpecOutcome.raised msg →
      (n, msg) ∈ (scanState cfg ignore resolver selfPath files).problematic) := by
  obtain ⟨l1, l2, hsplit⟩ := List.append_of_mem hf
  have hc : process_file cfg ignore f = some (f.path, f.size, true) := by
    simp [process_file, hcond, hmain]
  unfold scanState
  rw [hsplit, List.foldl_append, List.foldl_cons]
  constructor
  · apply foldl_used_mono cfg ignore resolver l2
    cases hp : f.parse with
    | none =>
      rw [scanStep_used_main_noparse hc hp]
      exact Finset.mem_insert_self _ _
    | some stmts =>
      rw [(scanStep_main_parse hc hp).1]
      exact (resolveImports_mono resolver (get_imported_modules stmts) _ _).1
        (Finset.mem_insert_self _ _)
  · intro stmts n msg hp hnf hmem hres
    apply foldl_problematic_mono cfg ignore resolver l2
    rw [(scanStep_main_parse hc hp).2]
    rw [resolveImports_eq resolver (get_imported_modules stmts) _ _
      (fun m _ => hnf (topSegment m))]
    apply Finset.mem_union_right
    rw [List.mem_toFinset]
    exact List.mem_filterMap.mpr ⟨n, hmem, by rw [hres]⟩

/-- Witness for the amended C3: a single app.py under a subdirectory is
seeded into used_files. -/
theorem every_matching_basename_is_entry_witness :
    "x/app.py" ∈ (scanState ⟨"app.py", 1000, [".py"], false⟩ (fun _ => false)
      (fun _ => SpecOutcome.notFound) "s" [⟨"x/app.py", 1, some []⟩]).used :=
  (every_matching_basename_is_entry ⟨"app.py", 1000, [".py"], false⟩ (fun _ => false)
    (fun _ => SpecOutcome.notFound) "s" [⟨"x/app.py", 1, some []⟩]
    ⟨"x/app.py", 1, some []⟩ (by decide) (by decide) (by decide)).1

/-- C1 counterexample: an import name that resolves to a module with no
physical origin (find_spec returns a spec whose origin attribute is None,
as for a namespace package).  The claim says the pair (importName,
reasonText) is added to the problematic-imports set; the code only records
pairs when one of the caught exception classes is raised, so here the
problematic set stays empty (and used gains nothing either). -/
theorem no_origin_import_not_recorded :
    (resolveImports (fun _ => SpecOutcome.found none) ["ns"] (∅, ∅)).2 = ∅ ∧
    (resolveImports (fun _ => SpecOutcome.found none) ["ns"] (∅, ∅)).1 = ∅ := by
  decide

/-- C1 amended: for every import name whose resolution raises one of the
caught exception classes (ImportError, AttributeError,
ModuleNotFoundError), the pair (importName, str(e)) is added to the
problematic-imports set, nothing is added to the used set for that name,
and processing of the remaining import names continues; an import whose
find_spec returns None, or returns a spec with no physical origin, adds
nothing to either set.  Stated as the exact value of both sets after the
loop, for resolutions that never raise an uncaught exception: used gains
exactly the origins of the names found with an origin, problematic gains
exactly the (name, message) pairs of the raising names, and every raising
pair is present. -/
theorem resolveImports_raised_spec (resolver : String → SpecOutcome) (ns : List String)
    (u : Finset String) (p : Finset (String × String))
    (hnf : ∀ n ∈ ns, (resolver (topSegment n)).isFatal = false) :
    (resolveImports resolver ns (u, p)).1 = u ∪ (resolvedOrigins resolver ns).toFinset ∧
    (resolveImports resolver ns (u, p)).2 = p ∪ (raisedPairs resolver ns).toFinset ∧
    (∀ n msg, n ∈ ns → resolver (topSegment n) = SpecOutcome.raised msg →
      (n, msg) ∈ (resolveImports resolver ns (u, p)).2) := by
  have h := resolveImports_eq resolver ns u p hnf
  refine ⟨by rw [h], by rw [h], ?_⟩
  intro n msg hn hres
  rw [h]
  apply Finset.mem_union_right
  rw [List.mem_toFinset]
  exact List.mem_filterMap.mpr ⟨n, hn, by rw [hres]⟩

/-- Witness for the amended C1: a resolver that raises on the single
imported name m records the pair (m, boom) in problematic. -/
theorem resolveImports_raised_spec_witness :
    ("m", "boom") ∈ (resolveImports (fun _ => SpecOutcome.raised "boom")
      ["m"] (∅, ∅)).2 :=
  (resolveImports_raised_spec (fun _ => SpecOutcome.raised "boom") ["m"] ∅ ∅
    (by decide)).2.2 "m" "boom" (by decide) rfl

theorem stepKey_inv (n : Nat) (st : List Bool × Nat) (k : Key)
    (hl : st.1.length = n) (hc : st.2 < n) :
    (stepKey n st k).1.length = n ∧ (stepKey n st k).2 < n := by
  cases k with
  | up =>
    unfold stepKey
    by_cases h : 0 < st.2
    · simp only [if_pos h]
      exact ⟨hl, by omega⟩
    · simp only [if_neg h]
      exact ⟨hl, hc⟩
  | down =>
    unfold stepKey
    by_cases h : st.2 < n - 1
    · simp only [if_pos h]
      exact ⟨hl, by omega⟩
    · simp only [if_neg h]
      exact ⟨hl, hc⟩
  | space =>
    unfold stepKey
    exact ⟨by simp [hl], hc⟩
  | selectAll =>
    unfold stepKey
    exact ⟨by simp, hc⟩
  | deselectAll =>
    unfold stepKey
    exact ⟨by simp, hc⟩
  | quit => exact ⟨hl, hc⟩
  | delete => exact ⟨hl, hc⟩
  | archive => exact ⟨hl, hc⟩
  | other => exact ⟨hl, hc⟩

theorem foldl_stepKey_inv (n : Nat) (hn : 0 < n) :
    ∀ (keys : List Key) (st : List Bool × Nat), st.1.length = n → st.2 < n →
    (keys.foldl (stepKey n) st).1.length = n ∧ (keys.foldl (stepKey n) st).2 < n
  | [], _, hl, hc => ⟨hl, hc⟩
  | k :: ks, st, hl, hc => by
    simp only [List.foldl_cons]
    have h := stepKey_inv n st k hl hc
    exact foldl_stepKey_inv n hn ks _ h.1 h.2

/-- C7: for a non-empty option list, the selection state of
interactive_select keeps len(selected) equal to len(options) and the
cursor inside [0, len(options)) after any key sequence; an up keypress
moves the cursor down by one unless it is already 0, a down keypress moves
it up by one unless it is already at the last index (clamping, no
wraparound); and the number of selected entries never exceeds
len(options). -/
theorem interactive_select_invariants (options : List String) (keys : List Key)
    (hn : 0 < options.length) :
    ((runKeys options.length keys).1.length = options.length ∧
     (runKeys options.length keys).2 < options.length ∧
     (runKeys options.length keys).1.count true ≤ options.length) ∧
    ((runKeys options.length (keys ++ [Key.up])).2 =
      if 0 < (runKeys options.length keys).2
      then (runKeys options.length keys).2 - 1
      else (runKeys options.length keys).2) ∧
    ((runKeys options.length (keys ++ [Key.down])).2 =
      if (runKeys options.length keys).2 < options.length - 1
      then (runKeys options.length keys).2 + 1
      else (runKeys options.length keys).2) := by
  have base := foldl_stepKey_inv options.length hn keys
    (List.replicate options.length false, 0) (by simp) hn
  refine ⟨⟨base.1, base.2, ?_⟩, ?_, ?_⟩
  · calc (runKeys options.length keys).1.count true
        ≤ (runKeys options.length keys).1.length := List.count_le_length _ _
      _ = options.length := base.1
  · simp [runKeys, List.foldl_append, stepKey, apply_ite Prod.snd]
  · simp [runKeys, List.foldl_append, stepKey, apply_ite Prod.snd]

/-- Witness for C7 on two options with a down move and a toggle. -/
theorem interactive_select_invariants_witness :
    (runKeys (List.length ["f", "g"]) [Key.down, Key.space]).1.length =
      List.length ["f", "g"] :=
  ((interactive_select_invariants ["f", "g"] [Key.down, Key.space] (by decide)).1).1

/-- C8: no filesystem mutation happens unless both sequential confirmations
are answered with y (case-insensitively): with any non-affirmative answer
at either stage every emitted event is a prompt, never a mutation; a
cancelled menu (interactive_select returned None, which pressing q
produces from any state) yields no events at all. -/
theorem no_mutation_without_confirmations (removeOp moveOp : String → Except String Unit)
    (archivePath : String) (dirExists : Bool)
    (result : Option (List String × Act)) (confirm finalConfirm : String)
    (h : strLower confirm ≠ "y" ∨ strLower finalConfirm ≠ "y") :
    (∀ e ∈ dispositionPhase removeOp moveOp archivePath dirExists result
        confirm finalConfirm, e.isMutation = false) ∧
    dispositionPhase removeOp moveOp archivePath dirExists none confirm finalConfirm
      = [] ∧
    (∀ (options : List String) (ks : List Key) (st : List Bool × Nat),
      selectRun options (Key.quit :: ks) st = LoopOut.cancelled) := by
  refine ⟨?_, rfl, fun _ _ _ => rfl⟩
  intro e he
  cases result with
  | none => simp [dispositionPhase] at he
  | some r =>
    obtain ⟨files, action⟩ := r
    by_cases hemp : files.isEmpty
    · simp [dispositionPhase, hemp] at he
    · by_cases hc1 : strLower confirm = "y"
      · have h2 : strLower finalConfirm ≠ "y" := by
          rcases h with h1 | h2
          · exact absurd hc1 h1
          · exact h2
        simp [dispositionPhase, hemp, hc1, h2] at he
        rcases he with rfl | rfl <;> rfl
      · simp [dispositionPhase, hemp, hc1] at he
        subst he
        rfl

/-- Witness for C8: with a first answer of n, the cancelled-menu branch
returns no events. -/
theorem no_mutation_without_confirmations_witness :
    dispositionPhase (fun _ => Except.ok ()) (fun _ => Except.ok ()) "G" true
      none "n" "y" = [] :=
  (no_mutation_without_confirmations (fun _ => Except.ok ()) (fun _ => Except.ok ())
    "G" true (some (["f"], Act.delete)) "n" "y" (Or.inl (by decide))).2.1

/-- C9: a failure on one batch item never aborts the batch.  delete_files
attempts every file of the list and reports, per file, either the removal
or the failure message; move_to_archive first creates the archive
directory when it does not exist and then attempts to move every file,
with the same per-file reporting, the destination being the archive folder
joined with the basename of the source. -/
theorem batch_failure_isolation (removeOp moveOp : String → Except String Unit)
    (files : List String) (archiveFolder : String) (dirExists : Bool)
    (f : String) (hf : f ∈ files) :
    (removeOp f = Except.ok () → Event.removed f ∈ delete_files removeOp files) ∧
    (∀ msg, removeOp f = Except.error msg →
      Event.removeFailed f msg ∈ delete_files removeOp files) ∧
    (dirExists = false →
      Event.madeDir archiveFolder ∈
        move_to_archive dirExists moveOp files archiveFolder) ∧
    (moveOp f = Except.ok () →
      Event.moved f (joinPath archiveFolder (basename f)) ∈
        move_to_archive dirExists moveOp files archiveFolder) ∧
    (∀ msg, moveOp f = Except.error msg →
      Event.moveFailed f msg ∈ move_to_archive dirExists moveOp files archiveFolder) := by
  refine ⟨?_, ?_, ?_, ?_, ?_⟩
  · intro h
    unfold delete_files
    exact List.mem_map.mpr ⟨f, hf, by rw [h]⟩
  · intro msg h
    unfold delete_files
    exact List.mem_map.mpr ⟨f, hf, by rw [h]⟩
  · intro h
    subst h
    simp [move_to_archive]
  · intro h
    unfold move_to_archive
    refine List.mem_append.mpr (Or.inr ?_)
    exact List.mem_map.mpr ⟨f, hf, by rw [h]⟩
  · intro msg h
    unfold move_to_archive
    refine List.mem_append.mpr (Or.inr ?_)
    exact List.mem_map.mpr ⟨f, hf, by rw [h]⟩

/-- Witness for C9: with a remove operation that fails on a and succeeds on
b, the batch still reports the removal of b. -/
theorem batch_failure_isolation_witness :
    Event.removed "b" ∈ delete_files
      (fun s => if s = "a" then Except.error "denied" else Except.ok ()) ["a", "b"] :=
  (batch_failure_isolation
    (fun s => if s = "a" then Except.error "denied" else Except.ok ())
    (fun _ => Except.ok ()) ["a", "b"] "G" true "b" (by decide)).1 rfl

theorem getD_all_false : ∀ (sel : List Bool), (∀ b ∈ sel, b = false) →
    ∀ i, sel.getD i false = false
  | [], _, i => by cases i <;> rfl
  | b :: sel, h, 0 => h b (List.mem_cons_self b sel)
  | b :: sel, h, (i + 1) =>
    getD_all_false sel (fun x hx => h x (List.mem_cons_of_mem b hx)) i

theorem pickSelected_none (options : List String) (sel : List Bool)
    (h : ∀ b ∈ sel, b = false) : pickSelected options sel = [] := by
  unfold pickSelected
  rw [List.filterMap_eq_nil_iff]
  intro i _
  rw [getD_all_false sel h i]
  simp

/-- C10: pressing the delete or archive key with nothing selected makes
interactive_select return the empty selection paired with the action, and
the disposition phase of main then returns at the files_to_process check,
emitting no confirmation prompt and no filesystem mutation. -/
theorem empty_selection_no_prompts (options : List String) (sel : List Bool) (cur : Nat)
    (a : Act) (ks : List Key)
    (removeOp moveOp : String → Except String Unit) (archivePath : String)
    (dirExists : Bool) (confirm finalConfirm : String)
    (h : ∀ b ∈ sel, b = false) :
    selectRun options (a.key :: ks) (sel, cur) = LoopOut.done [] a ∧
    dispositionPhase removeOp moveOp archivePath dirExists (some ([], a))
      confirm finalConfirm = [] := by
  constructor
  · cases a with
    | delete =>
      show LoopOut.done (pickSelected options sel) Act.delete = _
      rw [pickSelected_none options sel h]
    | archive =>
      show LoopOut.done (pickSelected options sel) Act.archive = _
      rw [pickSelected_none options sel h]
  · simp [dispositionPhase]

/-- Witness for C10: two options, nothing selected, delete pressed. -/
theorem empty_selection_no_prompts_witness :
    selectRun ["x", "y"] [Act.key Act.delete] ([false, false], 0) =
      LoopOut.done [] Act.delete ∧
    dispositionPhase (fun _ => Except.ok ()) (fun _ => Except.ok ()) "G" true
      (some ([], Act.delete)) "y" "y" = [] :=
  empty_selection_no_prompts ["x", "y"] [false, false] 0 Act.delete []
    (fun _ => Except.ok ()) (fun _ => Except.ok ()) "G" true "y" "y" (by decide)
